import Mathlib

/-!
Shallow embedding of `qualifier.py`: a quote-transformation and command-dispatch
module.  Strings are modelled as `List Char` (ASCII-centric, matching the spec's
stated non-goal of internationalization beyond ASCII).  Python exceptions are
modelled by `Except Err`; the advisory `warnings.warn` side channel of the uwu
transformer is modelled as a `Bool` flag paired with the outcome.
-/

/-- The distinct failure signals raised by the code:
`ValueError("Invalid command")`, `ValueError("Quote is too long")`,
`ValueError("Quote was not modified")`, `DuplicateError`, the `IndexError`
from `args[0]` on an empty argument list, the `ValueError` raised by
`shlex.split` on an unclosed quotation or trailing escape, and the
`ValueError` from unpacking `name, *args` when the split is empty. -/
inductive Err where
  | invalidCommand
  | quoteTooLong
  | notModified
  | duplicate
  | indexError
  | noClosingQuote
  | unpackError
deriving DecidableEq

deriving instance DecidableEq for Except

/-- A string, modelled as its list of characters. -/
abbrev Str := List Char

/-- The whitespace set of Python's `str.split()` (ASCII part):
space, tab, newline, carriage return, vertical tab, form feed. -/
def pyIsSpace (c : Char) : Bool :=
  c.toNat = 32 || c.toNat = 9 || c.toNat = 10 || c.toNat = 13 ||
  c.toNat = 11 || c.toNat = 12

/-- Accumulator-passing worker for Python's `str.split()`. -/
def pySplitAux : Str → Str → List Str
  | [], acc => if acc = [] then [] else [acc.reverse]
  | c :: cs, acc =>
      if pyIsSpace c then
        if acc = [] then pySplitAux cs [] else acc.reverse :: pySplitAux cs []
      else pySplitAux cs (c :: acc)

/-- Python `s.split()`: split on runs of whitespace, dropping empty words. -/
def pySplit (s : Str) : List Str := pySplitAux s []

/-- Python `" ".join(ws)`. -/
def pyJoin : List Str → Str
  | [] => []
  | [w] => w
  | w :: ws => w ++ ' ' :: pyJoin ws

/-- Python `s.replace(a, b)` for single characters `a`, `b`. -/
def pyReplaceChar (a b : Char) (s : Str) : Str :=
  s.map fun c => if c = a then b else c

/-- The letter-substitution step of `transform_to_uwu`:
`quote.replace("l","w").replace("L","W").replace("r","w").replace("R","W")`. -/
def uwuBase (quote : Str) : Str :=
  pyReplaceChar 'R' 'W' (pyReplaceChar 'r' 'w'
    (pyReplaceChar 'L' 'W' (pyReplaceChar 'l' 'w' quote)))

/-- The stutter step applied to one word:
`f"{word[0]}-{word}" if word.startswith(("u", "U")) else word`. -/
def stutterWord (word : Str) : Str :=
  match word with
  | [] => []
  | c :: cs => if c = 'u' ∨ c = 'U' then c :: '-' :: c :: cs else c :: cs

/-- The full stutter result: `" ".join(stutter per word of base.split())`. -/
def uwuStutterResult (base : Str) : Str :=
  pyJoin ((pySplit base).map stutterWord)

/-- `MAX_QUOTE_LENGTH = 50`. -/
def MAX_QUOTE_LENGTH : Nat := 50

/-- `transform_to_uwu` from `qualifier.py`.  Returns the pair
(warning-was-raised, outcome): compute the letter-substitution `base`, then
the stuttered join; if the stuttered result exceeds `MAX_QUOTE_LENGTH`, warn
and fall back to `base`; finally fail with `notModified` when the result
equals the input. -/
def transform_to_uwu (quote : Str) : Bool × Except Err Str :=
  let base := uwuBase quote
  let stuttered := uwuStutterResult base
  let warned := decide (stuttered.length > MAX_QUOTE_LENGTH)
  let result := if stuttered.length > MAX_QUOTE_LENGTH then base else stuttered
  (warned, if result = quote then .error .notModified else .ok result)

/-- Membership in the vowel string `"aeiou"`. -/
def isVowel (c : Char) : Bool :=
  c = 'a' || c = 'e' || c = 'i' || c = 'o' || c = 'u'

/-- `_word_to_piglatin` from `qualifier.py`: find the index of the first
vowel (`None` when absent); at index 0 append `way`; at a later index move
the leading consonant cluster to the end and append `ay`; otherwise return
the word unchanged. -/
def _word_to_piglatin (word : Str) : Str :=
  match word.findIdx? (fun c => isVowel c) with
  | some 0 => word ++ "way".data
  | some i => word.drop i ++ word.take i ++ "ay".data
  | none => word

/-- Python `s.capitalize()` (ASCII model): first character upper-cased,
the rest lower-cased. -/
def pyCapitalize (s : Str) : Str :=
  match s with
  | [] => []
  | c :: cs => c.toUpper :: cs.map Char.toLower

/-- The fully computed pig-latin rendering of `transform_to_piglatin`
before its length and no-op checks:
`" ".join(_word_to_piglatin(w) for w in quote.lower().split()).capitalize()`. -/
def piglatinRendering (quote : Str) : Str :=
  pyCapitalize (pyJoin ((pySplit (quote.map Char.toLower)).map _word_to_piglatin))

/-- `transform_to_piglatin` from `qualifier.py`: compute the rendering; if it
exceeds `MAX_QUOTE_LENGTH` fall back to the original input; fail with
`notModified` when the result equals the input. -/
def transform_to_piglatin (quote : Str) : Except Err Str :=
  let result := piglatinRendering quote
  let result := if result.length > MAX_QUOTE_LENGTH then quote else result
  if result = quote then .error .notModified else .ok result

/-- `VariantMode(StrEnum)` with members `NORMAL`, `UWU`, `PIGLATIN`. -/
inductive VariantMode where
  | normal
  | uwu
  | piglatin
deriving DecidableEq

/-- The string value of a `VariantMode` member (`auto()` on a `StrEnum`
yields the lower-cased member name). -/
def VariantMode.value : VariantMode → Str
  | .normal => "normal".data
  | .uwu => "uwu".data
  | .piglatin => "piglatin".data

/-- `operation in VariantMode` together with `VariantMode(operation)`:
the member whose value equals the string, when one exists. -/
def strToMode? (s : Str) : Option VariantMode :=
  if s = "normal".data then some .normal
  else if s = "uwu".data then some .uwu
  else if s = "piglatin".data then some .piglatin
  else none

/-- The `Quote` entity: a raw quote string and a variant mode. -/
structure Quote where
  quote : Str
  mode : VariantMode
deriving DecidableEq

/-- `str(quote)` / `Quote._create_variant`: look up the transformer for the
mode and apply it.  The uwu transformer's advisory warning flag does not
alter control flow, so only the outcome matters here. -/
def Quote.display (q : Quote) : Except Err Str :=
  match q.mode with
  | .normal => .ok q.quote
  | .uwu => (transform_to_uwu q.quote).2
  | .piglatin => transform_to_piglatin q.quote

/-- `Database.get_quotes`: stringify every stored quote, in order
(`[str(quote) for quote in cls.quotes]`, left to right). -/
def get_quotes : List Quote → Except Err (List Str)
  | [] => .ok []
  | q :: qs =>
    match q.display with
    | .error e => .error e
    | .ok s =>
      match get_quotes qs with
      | .error e => .error e
      | .ok ss => .ok (s :: ss)

/-- `Database.add_quote`: stringify the new quote (any transformer error
propagates from here), raise `DuplicateError` when an equal display
string is already stored, otherwise append. -/
def add_quote (st : List Quote) (q : Quote) : Except Err (List Quote) :=
  match q.display with
  | .error e => .error e
  | .ok s =>
    match get_quotes st with
    | .error e => .error e
    | .ok ss => if s ∈ ss then .error .duplicate else .ok (st ++ [q])

/-- The whitespace set of `shlex` (`shlex.whitespace = " \t\r\n"`). -/
def shlexIsSpace (c : Char) : Bool :=
  c.toNat = 32 || c.toNat = 9 || c.toNat = 13 || c.toNat = 10

/-- Lexer state of `shlex.split`: outside quotes, inside single quotes,
inside double quotes. -/
inductive SMode where
  | norm
  | single
  | double

/-- State machine of `shlex.split(s)` in POSIX mode with whitespace
splitting: whitespace separates tokens; single quotes group literally;
double quotes group with backslash escaping only `"` and `\`; outside
quotes a backslash escapes the next character; an unclosed quotation or a
trailing escape raises `ValueError` (modelled as `none`).  `started`
records whether the current token has begun (so `""` yields an empty
token). -/
def shlexAux : SMode → Str → Bool → Str → Option (List Str)
  | .norm, [], started, acc =>
      some (if started then [acc.reverse] else [])
  | .norm, ['\\'], _, _ => none
  | .norm, '\\' :: d :: ds, _, acc => shlexAux .norm ds true (d :: acc)
  | .norm, c :: cs, started, acc =>
      if shlexIsSpace c then
        if started then (acc.reverse :: ·) <$> shlexAux .norm cs false []
        else shlexAux .norm cs false []
      else if c = '\'' then shlexAux .single cs true acc
      else if c = '"' then shlexAux .double cs true acc
      else shlexAux .norm cs true (c :: acc)
  | .single, [], _, _ => none
  | .single, c :: cs, started, acc =>
      if c = '\'' then shlexAux .norm cs started acc
      else shlexAux .single cs started (c :: acc)
  | .double, [], _, _ => none
  | .double, ['\\'], _, _ => none
  | .double, '\\' :: d :: ds, started, acc =>
      if d = '"' ∨ d = '\\' then shlexAux .double ds started (d :: acc)
      else shlexAux .double ds started (d :: '\\' :: acc)
  | .double, c :: cs, started, acc =>
      if c = '"' then shlexAux .norm cs started acc
      else shlexAux .double cs started (c :: acc)

/-- `shlex.split(s)`. -/
def shlexSplit (s : Str) : Option (List Str) := shlexAux .norm s false []

/-- `command.replace("“", '"').replace("”", '"')`: smart double quotes
become plain double quotes. -/
def normalizeSmart (s : Str) : Str :=
  pyReplaceChar '”' '"' (pyReplaceChar '“' '"' s)

/-- Mode determination for an insertion command (the `if operation in
VariantMode / elif operation == quote / else raise` chain). -/
def determineMode (operation quoteText : Str) : Option VariantMode :=
  match strToMode? operation with
  | some m => some m
  | none => if operation = quoteText then some .normal else none

/-- `print` output of the `list` operation:
`"\n".join(f"- {q}" for q in Database.get_quotes())`. -/
def listOutput (ss : List Str) : Str :=
  (ss.map (fun s => '-' :: ' ' :: s)).intersperse ['\n'] |>.flatten

/-- The message printed when `DuplicateError` is caught. -/
def dupNotice : Str := "Quote has already been added previously".data

/-- The body of `run_command` after tokenization (`name, *args =
shlex.split(command)` onwards), with the external store passed and
returned explicitly.  The first component is the outcome (the list of
printed lines on success, or the propagated error); the second is the
store after the call (unchanged whenever an error propagates, since every
`raise` happens before the store is touched). -/
def listBranch (st : List Quote) : Except Err (List Str) × List Quote :=
  match get_quotes st with
  | .error e => (.error e, st)
  | .ok ss => (.ok [listOutput ss], st)

/-- The insertion tail of `run_command`: build the `Quote`, try to add it
(stringification happens inside `add_quote`), catch `DuplicateError` and
print the notice instead. -/
def insertBranch (quoteText : Str) (mode : VariantMode) (st : List Quote) :
    Except Err (List Str) × List Quote :=
  match add_quote st ⟨quoteText, mode⟩ with
  | .ok st2 => (.ok [], st2)
  | .error .duplicate => (.ok [dupNotice], st)
  | .error e => (.error e, st)

/-- The raw-length check and mode determination of `run_command` applied
to the extracted quote text (`args[-1]`). -/
def quoteCheck (operation quoteText : Str) (st : List Quote) :
    Except Err (List Str) × List Quote :=
  if quoteText.length > MAX_QUOTE_LENGTH then (.error .quoteTooLong, st)
  else
    match determineMode operation quoteText with
    | none => (.error .invalidCommand, st)
    | some mode => insertBranch quoteText mode st

/-- The dispatch on `operation = args[0]` after the arity check. -/
def runArgs (operation : Str) (rest : List Str) (st : List Quote) :
    Except Err (List Str) × List Quote :=
  if operation = "list".data then listBranch st
  else quoteCheck operation ((operation :: rest).getLastD []) st

def runTokens (tokens : Option (List Str)) (st : List Quote) :
    Except Err (List Str) × List Quote :=
  match tokens with
  | none => (.error .noClosingQuote, st)
  | some [] => (.error .unpackError, st)
  | some (name :: args) =>
    if name ≠ "quote".data ∨ (1 < args.length ∧ args.length > 2) then
      (.error .invalidCommand, st)
    else
      match args with
      | [] => (.error .indexError, st)
      | operation :: rest => runArgs operation rest st

/-- `run_command` from `qualifier.py`: normalize smart quotes, tokenize
with `shlex.split`, then dispatch. -/
def run_command (command : Str) (st : List Quote) :
    Except Err (List Str) × List Quote :=
  runTokens (shlexSplit (normalizeSmart command)) st

/-- No occurrence of the letters replaced by the uwu substitution step. -/
def noLetterSub (q : Str) : Bool :=
  q.all fun c => !(c = 'l' || c = 'L' || c = 'r' || c = 'R')

/-- The word triggers the stutter step: it begins with `u` or `U`. -/
def startsStutter (w : Str) : Bool :=
  match w with
  | [] => false
  | c :: _ => c = 'u' || c = 'U'

/-- No whitespace-separated word of the string begins with `u` or `U`. -/
def noStutterStart (q : Str) : Bool :=
  (pySplit q).all fun w => !startsStutter w

theorem map_eq_self_of {α : Type} {f : α → α} {l : List α}
    (h : ∀ a ∈ l, f a = a) : l.map f = l :=
  (List.map_congr_left h).trans (List.map_id l)

theorem uwuBase_eq_self {q : Str} (h : noLetterSub q = true) : uwuBase q = q := by
  simp only [noLetterSub, List.all_eq_true] at h
  have h4 : ∀ a ∈ q, ¬a = 'l' ∧ ¬a = 'L' ∧ ¬a = 'r' ∧ ¬a = 'R' := by
    intro a ha
    have := h a ha
    simp at this
    tauto
  have e1 : pyReplaceChar 'l' 'w' q = q :=
    map_eq_self_of fun a ha => by simp [(h4 a ha).1]
  have e2 : pyReplaceChar 'L' 'W' q = q :=
    map_eq_self_of fun a ha => by simp [(h4 a ha).2.1]
  have e3 : pyReplaceChar 'r' 'w' q = q :=
    map_eq_self_of fun a ha => by simp [(h4 a ha).2.2.1]
  have e4 : pyReplaceChar 'R' 'W' q = q :=
    map_eq_self_of fun a ha => by simp [(h4 a ha).2.2.2]
  unfold uwuBase
  rw [e1, e2, e3, e4]

theorem stutterWord_eq_self {w : Str} (h : startsStutter w = false) :
    stutterWord w = w := by
  unfold startsStutter at h
  unfold stutterWord
  match w with
  | [] => rfl
  | c :: cs => simp at h; simp [h]

/-- C1, amended.  The claim as stated is false: when the input's
whitespace is not already normalized (e.g. a double space), the split/join
of the stutter step changes the string and the transformation succeeds.
Amended: for every input with none of `l`, `L`, `r`, `R`, no word
beginning with `u`/`U`, and whose whitespace is already normalized
(joining its words with single spaces reproduces the input),
`transform_to_uwu` fails with the `notModified` ("transformation had no
effect") error. -/
theorem transform_to_uwu_noop_of_normalized (q : Str)
    (h1 : noLetterSub q = true) (h2 : noStutterStart q = true)
    (h3 : pyJoin (pySplit q) = q) :
    (transform_to_uwu q).2 = .error .notModified := by
  have hbase : uwuBase q = q := uwuBase_eq_self h1
  have hmap : (pySplit q).map stutterWord = pySplit q := by
    apply map_eq_self_of
    intro w hw
    apply stutterWord_eq_self
    simp only [noStutterStart, List.all_eq_true] at h2
    simpa using h2 w hw
  have hstut : uwuStutterResult q = q := by
    unfold uwuStutterResult; rw [hmap, h3]
  simp only [transform_to_uwu, hbase, hstut]
  by_cases hlen : q.length > MAX_QUOTE_LENGTH <;> simp [hlen]

/-- Witness for the amended C1 at the concrete input `"abc"`. -/
theorem transform_to_uwu_noop_of_normalized_witness :
    (transform_to_uwu "abc".data).2 = .error .notModified :=
  transform_to_uwu_noop_of_normalized "abc".data (by decide) (by decide)
    (by decide)

/-- Counterexample to C1 as stated: `"a  b"` contains none of `l`, `L`,
`r`, `R` and no word beginning with `u`/`U`, yet `transform_to_uwu`
returns `"a b"` (whitespace collapsed by the split/join of the stutter
step) instead of failing with the no-effect error. -/
theorem transform_to_uwu_noop_counterexample :
    noLetterSub "a  b".data = true ∧ noStutterStart "a  b".data = true ∧
    transform_to_uwu "a  b".data = (false, .ok "a b".data) := by decide

/-- C6, amended.  The claim as stated is false: when the letter
substitution changes nothing (no `l`, `L`, `r`, `R` in the input) and the
stuttered result exceeds the maximum length, the fallback result equals
the input and the no-op check then raises, so the operation does not
succeed.  Amended: when the fully transformed result exceeds 50
characters and the letter-substitution-only version differs from the
input, `transform_to_uwu` warns and returns the substitution-only
version. -/
theorem transform_to_uwu_length_fallback (q : Str)
    (h1 : (uwuStutterResult (uwuBase q)).length > MAX_QUOTE_LENGTH)
    (h2 : uwuBase q ≠ q) :
    transform_to_uwu q = (true, .ok (uwuBase q)) := by
  simp only [transform_to_uwu]
  simp [h1, h2]

/-- Witness for the amended C6: a 44-character input whose stuttered
result is 52 characters long and whose substitution step changes `l` to
`w`. -/
theorem transform_to_uwu_length_fallback_witness :
    transform_to_uwu "luuuuuuu uuuuuuuu uuuuuuuu uuuuuuuu uuuuuuuu".data =
      (true, .ok "wuuuuuuu uuuuuuuu uuuuuuuu uuuuuuuu uuuuuuuu".data) := by
  have h := transform_to_uwu_length_fallback
    "luuuuuuu uuuuuuuu uuuuuuuu uuuuuuuu uuuuuuuu".data (by decide) (by decide)
  rw [h]
  decide

/-- Counterexample to C6 as stated: an all-`u` input whose stuttered
result exceeds 50 characters.  The substitution step changes nothing, so
the length fallback reproduces the input and the transformer raises the
no-op error instead of succeeding with the substitution-only version. -/
theorem transform_to_uwu_length_counterexample :
    (uwuStutterResult (uwuBase
      "uuuuuuuu uuuuuuuu uuuuuuuu uuuuuuuu uuuuuuuu".data)).length >
      MAX_QUOTE_LENGTH ∧
    transform_to_uwu "uuuuuuuu uuuuuuuu uuuuuuuu uuuuuuuu uuuuuuuu".data =
      (true, .error .notModified) := by decide

/-- C7, confirmed.  Whenever the uwu or pig-latin transformer returns
normally, the returned string differs from the input; a result equal to
the input is always turned into the `notModified` error. -/
theorem transform_result_differs (q s : Str)
    (h : (∃ b, transform_to_uwu q = (b, .ok s)) ∨
      transform_to_piglatin q = .ok s) :
    s ≠ q := by
  rcases h with ⟨b, hb⟩ | hp
  · have h2 := congrArg Prod.snd hb
    dsimp only [transform_to_uwu] at h2
    split at h2 <;> split at h2
    all_goals
      first
      | exact Except.noConfusion h2
      | (rename_i hne
         injection h2 with hx
         intro heq
         exact hne (hx.trans heq))
  · dsimp only [transform_to_piglatin] at hp
    split at hp <;> split at hp
    all_goals
      first
      | exact Except.noConfusion hp
      | (rename_i hne
         injection hp with hx
         intro heq
         exact hne (hx.trans heq))

/-- Witness for C7 at `"hello"` under both transformers. -/
theorem transform_result_differs_witness :
    "hewwo".data ≠ "hello".data ∧ "Ellohay".data ≠ "hello".data :=
  ⟨transform_result_differs "hello".data "hewwo".data
      (Or.inl ⟨false, by decide⟩),
    transform_result_differs "hello".data "Ellohay".data (Or.inr (by decide))⟩

/-- C5, confirmed.  When the fully computed pig-latin rendering exceeds 50
characters the transformer falls back to the unmodified input and the
no-op check then always raises; consequently a normal return is never
longer than 50 characters. -/
theorem transform_to_piglatin_length_policy (q s : Str) :
    ((piglatinRendering q).length > MAX_QUOTE_LENGTH →
      transform_to_piglatin q = .error .notModified) ∧
    (transform_to_piglatin q = .ok s → s.length ≤ MAX_QUOTE_LENGTH) := by
  constructor
  · intro h
    simp [transform_to_piglatin, h]
  · intro h
    dsimp only [transform_to_piglatin] at h
    by_cases hl : (piglatinRendering q).length > MAX_QUOTE_LENGTH
    · simp [hl] at h
    · simp only [if_neg hl] at h
      split at h
      · exact Except.noConfusion h
      · injection h with hx
        rw [← hx]
        omega

/-- Witness for C5: a 60-character all-`a` input renders to 63 characters
and so fails with the no-op error; the accepted `hello` rendering
`Ellohay` is within the bound. -/
theorem transform_to_piglatin_length_policy_witness :
    transform_to_piglatin (List.replicate 60 'a') = .error .notModified ∧
    "Ellohay".data.length ≤ MAX_QUOTE_LENGTH :=
  ⟨(transform_to_piglatin_length_policy (List.replicate 60 'a') []).1
      (by decide),
    (transform_to_piglatin_length_policy "hello".data "Ellohay".data).2
      (by decide)⟩

/-- C2, amended.  The claim as stated is false: the chained-comparison
arity check `1 < len(args) > 2` raises the invalid-command error only
when there are more than 2 arguments; with 0 arguments the check passes
and `args[0]` raises an `IndexError` instead, and with 2 arguments an
invalid-command error can still arise later from mode determination.
Amended: for a first token `quote`, more than 2 arguments fail with the
invalid-command error, while 0 arguments fail with an index error. -/
theorem run_command_arity (command : Str) (st : List Quote)
    (args : List Str)
    (h : shlexSplit (normalizeSmart command) = some ("quote".data :: args)) :
    (args.length > 2 →
      run_command command st = (.error .invalidCommand, st)) ∧
    (args.length = 0 →
      run_command command st = (.error .indexError, st)) := by
  constructor
  · intro hlen
    unfold run_command
    rw [h]
    simp only [runTokens]
    rw [if_pos (Or.inr ⟨by omega, hlen⟩)]
  · intro hlen
    have ha : args = [] := List.length_eq_zero.mp hlen
    subst ha
    unfold run_command
    rw [h]
    simp only [runTokens]
    rw [if_neg (by simp)]

/-- Witness for the amended C2: `"quote a b c"` (3 arguments) fails with
the invalid-command error and `"quote"` (0 arguments) fails with the
index error. -/
theorem run_command_arity_witness :
    run_command "quote a b c".data [] = (.error .invalidCommand, []) ∧
    run_command "quote".data [] = (.error .indexError, []) :=
  ⟨(run_command_arity "quote a b c".data []
      ["a".data, "b".data, "c".data] (by decide)).1 (by decide),
    (run_command_arity "quote".data [] [] (by decide)).2 (by decide)⟩

/-- Counterexample to C2 as stated: `"quote"` has first token `quote` and
0 arguments (neither 1 nor 2), yet `run_command` fails with an
`IndexError` from `args[0]`, not with the invalid-command error. -/
theorem run_command_arity_counterexample :
    shlexSplit (normalizeSmart "quote".data) = some ["quote".data] ∧
    run_command "quote".data [] = (.error .indexError, []) ∧
    Err.indexError ≠ Err.invalidCommand := by decide

/-- `get_quotes` over an appended well-displayed quote. -/
theorem get_quotes_append {st : List Quote} {ss : List Str} {q : Quote}
    {d : Str} (h1 : get_quotes st = .ok ss) (h2 : q.display = .ok d) :
    get_quotes (st ++ [q]) = .ok (ss ++ [d]) := by
  induction st generalizing ss with
  | nil =>
    simp only [get_quotes] at h1
    injection h1 with h1
    subst h1
    simp [get_quotes, h2]
  | cons p ps ih =>
    simp only [get_quotes] at h1
    cases hd : p.display with
    | error e => rw [hd] at h1; exact Except.noConfusion h1
    | ok s =>
      rw [hd] at h1
      cases hq : get_quotes ps with
      | error e => rw [hq] at h1; exact Except.noConfusion h1
      | ok ss2 =>
        rw [hq] at h1
        injection h1 with h1
        subst h1
        rw [List.cons_append]
        simp only [get_quotes]
        rw [hd, ih hq]
        simp

/-- Mode determination when the single argument doubles as the quote text
and is not `uwu` or `piglatin`: the result is the `normal` mode (for the
argument `normal` via the explicit-mode branch, otherwise via the
`operation == quote` branch). -/
theorem determineMode_self {x : Str} (h1 : x ≠ "uwu".data)
    (h2 : x ≠ "piglatin".data) :
    determineMode x x = some .normal := by
  unfold determineMode strToMode?
  by_cases hn : x = "normal".data <;> simp [hn, h1, h2]

/-- `add_quote` of a fresh, well-displayed quote appends it. -/
theorem add_quote_fresh {st : List Quote} {ss : List Str} {q : Quote}
    {d : Str} (h1 : get_quotes st = .ok ss) (h2 : q.display = .ok d)
    (h3 : d ∉ ss) :
    add_quote st q = .ok (st ++ [q]) := by
  simp only [add_quote, h2, h1]
  rw [if_neg h3]

/-- C3, amended.  The claim as stated is false: a single argument that is
itself a recognized mode name (e.g. `quote uwu`) takes the explicit-mode
branch, so the Quote is built with that mode and the stored display
string can differ from the argument.  Amended: for a single argument
that is not `list` and not `uwu` or `piglatin`, at most 50 characters
long, whose display text is not already stored, the command inserts the
argument under the `normal` mode and the stored display string equals
the argument text. -/
theorem run_command_single_arg_normal (command : Str) (st : List Quote)
    (x : Str) (ss : List Str)
    (h : shlexSplit (normalizeSmart command) = some ["quote".data, x])
    (hlist : x ≠ "list".data)
    (hm1 : x ≠ "uwu".data) (hm2 : x ≠ "piglatin".data)
    (hlen : x.length ≤ MAX_QUOTE_LENGTH)
    (hq : get_quotes st = .ok ss) (hfresh : x ∉ ss) :
    run_command command st = (.ok [], st ++ [⟨x, .normal⟩]) ∧
    get_quotes (st ++ [⟨x, .normal⟩]) = .ok (ss ++ [x]) := by
  have hdisp : Quote.display ⟨x, .normal⟩ = .ok x := rfl
  refine ⟨?_, get_quotes_append hq hdisp⟩
  unfold run_command
  rw [h]
  simp only [runTokens]
  rw [if_neg (by simp)]
  show runArgs x [] st = _
  simp only [runArgs]
  rw [if_neg hlist]
  have hlast : ((x :: []).getLastD ([] : Str)) = x := rfl
  rw [hlast]
  simp only [quoteCheck]
  rw [if_neg (by omega), determineMode_self hm1 hm2]
  show insertBranch x .normal st = _
  simp only [insertBranch]
  rw [add_quote_fresh hq hdisp hfresh]

/-- Witness for the amended C3 at `quote hey` on the empty store. -/
theorem run_command_single_arg_normal_witness :
    run_command "quote hey".data [] =
      (.ok [], [] ++ [⟨"hey".data, .normal⟩]) ∧
    get_quotes ([] ++ [⟨"hey".data, .normal⟩]) = .ok ([] ++ ["hey".data]) :=
  run_command_single_arg_normal "quote hey".data [] "hey".data []
    (by decide) (by decide) (by decide) (by decide) (by decide) rfl
    (by decide)

/-- Counterexample to C3 as stated: the single argument `uwu` is not
`list` and is under 50 characters, yet the command constructs the Quote
with the `uwu` mode and the stored display string `u-uwu` differs from
the argument text. -/
theorem run_command_single_arg_counterexample :
    run_command "quote uwu".data [] = (.ok [], [⟨"uwu".data, .uwu⟩]) ∧
    get_quotes [⟨"uwu".data, .uwu⟩] = .ok ["u-uwu".data] ∧
    VariantMode.uwu ≠ VariantMode.normal ∧
    "u-uwu".data ≠ "uwu".data := by decide

/-- C9, confirmed.  For an insertion command (1 or 2 arguments, first
argument not `list`) whose quote text — the last argument — exceeds 50
characters, `run_command` fails with the too-long error on the raw text,
before any transformation, and the store is unchanged. -/
theorem run_command_quote_too_long (command : Str) (st : List Quote)
    (operation : Str) (rest : List Str)
    (h : shlexSplit (normalizeSmart command) =
      some ("quote".data :: operation :: rest))
    (hr : rest.length ≤ 1)
    (hop : operation ≠ "list".data)
    (hlen : ((operation :: rest).getLastD []).length > MAX_QUOTE_LENGTH) :
    run_command command st = (.error .quoteTooLong, st) := by
  unfold run_command
  rw [h]
  simp only [runTokens]
  rw [if_neg (not_or.mpr ⟨by simp, by simp; omega⟩)]
  show runArgs operation rest st = _
  simp only [runArgs]
  rw [if_neg hop]
  simp only [quoteCheck]
  rw [if_pos hlen]

/-- Witness for C9: a 51-character quote text is rejected with the
too-long error and the store stays empty. -/
theorem run_command_quote_too_long_witness :
    run_command ("quote ".data ++ List.replicate 51 'a') [] =
      (.error .quoteTooLong, []) :=
  run_command_quote_too_long ("quote ".data ++ List.replicate 51 'a') []
    (List.replicate 51 'a') [] (by decide) (by decide) (by decide)
    (by decide)

/-- C8, confirmed.  A valid insertion command whose constructed Quote's
display string is already stored makes `run_command` catch the duplicate
signal, print the already-added notice, and leave the store unchanged. -/
theorem run_command_duplicate_notice (command : Str) (st : List Quote)
    (operation : Str) (rest : List Str) (qt : Str) (m : VariantMode)
    (d : Str) (ss : List Str)
    (h : shlexSplit (normalizeSmart command) =
      some ("quote".data :: operation :: rest))
    (hr : rest.length ≤ 1)
    (hop : operation ≠ "list".data)
    (hqt : (operation :: rest).getLastD [] = qt)
    (hqlen : qt.length ≤ MAX_QUOTE_LENGTH)
    (hm : determineMode operation qt = some m)
    (hd : Quote.display ⟨qt, m⟩ = .ok d)
    (hss : get_quotes st = .ok ss)
    (hdup : d ∈ ss) :
    run_command command st = (.ok [dupNotice], st) := by
  unfold run_command
  rw [h]
  simp only [runTokens]
  rw [if_neg (not_or.mpr ⟨by simp, by simp; omega⟩)]
  show runArgs operation rest st = _
  simp only [runArgs]
  rw [if_neg hop, hqt]
  simp only [quoteCheck]
  rw [if_neg (by omega), hm]
  show insertBranch qt m st = _
  simp only [insertBranch]
  have hadd : add_quote st ⟨qt, m⟩ = .error .duplicate := by
    simp only [add_quote, hd, hss]
    rw [if_pos hdup]
  rw [hadd]

/-- Witness for C8: re-submitting `hi` when its display string is already
stored prints the notice and leaves the store as it was. -/
theorem run_command_duplicate_notice_witness :
    run_command "quote hi".data [⟨"hi".data, .normal⟩] =
      (.ok [dupNotice], [⟨"hi".data, .normal⟩]) :=
  run_command_duplicate_notice "quote hi".data [⟨"hi".data, .normal⟩]
    "hi".data [] "hi".data .normal "hi".data ["hi".data]
    (by decide) (by decide) (by decide) rfl (by decide) (by decide) rfl
    rfl (by decide)

/-- C10, confirmed.  A two-argument command `quote x x` with equal
argument tokens, where `x` is not `list`, not a recognized mode name and
at most 50 characters long (and its display text not already stored), is
accepted: the `operation == quote` test compares the first and last
arguments, which coincide, so `x` is inserted under the `normal` mode. -/
theorem run_command_equal_args_normal (command : Str) (st : List Quote)
    (x : Str) (ss : List Str)
    (h : shlexSplit (normalizeSmart command) =
      some ["quote".data, x, x])
    (hlist : x ≠ "list".data)
    (hmode : strToMode? x = none)
    (hlen : x.length ≤ MAX_QUOTE_LENGTH)
    (hq : get_quotes st = .ok ss) (hfresh : x ∉ ss) :
    run_command command st = (.ok [], st ++ [⟨x, .normal⟩]) := by
  have hdisp : Quote.display ⟨x, .normal⟩ = .ok x := rfl
  unfold run_command
  rw [h]
  simp only [runTokens]
  rw [if_neg (by simp)]
  show runArgs x [x] st = _
  simp only [runArgs]
  rw [if_neg hlist]
  have hlast : ((x :: [x]).getLastD ([] : Str)) = x := rfl
  rw [hlast]
  simp only [quoteCheck]
  rw [if_neg (by omega)]
  have hdm : determineMode x x = some .normal := by
    unfold determineMode
    rw [hmode]
    simp
  rw [hdm]
  show insertBranch x .normal st = _
  simp only [insertBranch]
  rw [add_quote_fresh hq hdisp hfresh]

/-- Witness for C10 at `quote foo foo` on the empty store. -/
theorem run_command_equal_args_normal_witness :
    run_command "quote foo foo".data [] =
      (.ok [], [] ++ [⟨"foo".data, .normal⟩]) :=
  run_command_equal_args_normal "quote foo foo".data [] "foo".data []
    (by decide) (by decide) (by decide) (by decide) rfl (by decide)

theorem char_toNat_ofNat_valid {n : Nat} (h : n.isValidChar) :
    (Char.ofNat n).toNat = n := by
  unfold Char.ofNat
  rw [dif_pos h]
  rfl

theorem toLower_hi {c : Char} (h : 65 ≤ c.toNat ∧ c.toNat ≤ 90) :
    c.toLower = Char.ofNat (c.toNat + 32) := by
  simp only [Char.toLower]
  rw [if_pos h]

theorem toLower_lo {c : Char} (h : ¬(65 ≤ c.toNat ∧ c.toNat ≤ 90)) :
    c.toLower = c := by
  simp only [Char.toLower]
  rw [if_neg h]

theorem toLower_toLower (c : Char) : c.toLower.toLower = c.toLower := by
  by_cases h : 65 ≤ c.toNat ∧ c.toNat ≤ 90
  · rw [toLower_hi h]
    have hn : (Char.ofNat (c.toNat + 32)).toNat = c.toNat + 32 :=
      char_toNat_ofNat_valid (Or.inl (by omega))
    rw [toLower_lo (by rw [hn]; omega)]
  · rw [toLower_lo h]
    exact toLower_lo h

theorem pyIsSpace_toLower (c : Char) : pyIsSpace c.toLower = pyIsSpace c := by
  by_cases h : 65 ≤ c.toNat ∧ c.toNat ≤ 90
  · rw [toLower_hi h]
    have hn : (Char.ofNat (c.toNat + 32)).toNat = c.toNat + 32 :=
      char_toNat_ofNat_valid (Or.inl (by omega))
    have h1 : pyIsSpace (Char.ofNat (c.toNat + 32)) = false := by
      unfold pyIsSpace
      rw [hn]
      simp only [Bool.or_eq_false_iff, decide_eq_false_iff_not]
      omega
    have h2 : pyIsSpace c = false := by
      unfold pyIsSpace
      simp only [Bool.or_eq_false_iff, decide_eq_false_iff_not]
      omega
    rw [h1, h2]
  · rw [toLower_lo h]

theorem pySplitAux_map_toLower (s : Str) : ∀ acc : Str,
    pySplitAux (s.map Char.toLower) (acc.map Char.toLower) =
      (pySplitAux s acc).map (List.map Char.toLower) := by
  induction s with
  | nil =>
    intro acc
    cases acc with
    | nil => rfl
    | cons a as => simp [pySplitAux, List.map_reverse]
  | cons c cs ih =>
    intro acc
    simp only [List.map_cons, pySplitAux, pyIsSpace_toLower]
    by_cases hsp : pyIsSpace c
    · simp only [if_pos hsp]
      cases acc with
      | nil => simpa using ih []
      | cons a as =>
        simp only [List.map_cons]
        rw [if_neg (by simp), if_neg (by simp)]
        simp only [List.map_cons, List.map_reverse]
        have := ih []
        simp only [List.map_nil] at this
        rw [this]
    · simp only [if_neg hsp]
      have := ih (c :: acc)
      simpa using this

theorem pySplit_map_toLower (s : Str) :
    pySplit (s.map Char.toLower) = (pySplit s).map (List.map Char.toLower) := by
  have := pySplitAux_map_toLower s []
  simpa [pySplit] using this

theorem stable_map_toLower (s : Str) :
    (s.map Char.toLower).map Char.toLower = s.map Char.toLower := by
  rw [List.map_map]
  exact List.map_congr_left fun a _ => toLower_toLower a

theorem stable_append {s t : Str} (hs : s.map Char.toLower = s)
    (ht : t.map Char.toLower = t) : (s ++ t).map Char.toLower = s ++ t := by
  rw [List.map_append, hs, ht]

theorem stable_word_to_piglatin {w : Str} (h : w.map Char.toLower = w) :
    (_word_to_piglatin w).map Char.toLower = _word_to_piglatin w := by
  unfold _word_to_piglatin
  cases hf : w.findIdx? (fun c => isVowel c) with
  | none => exact h
  | some i =>
    cases i with
    | zero => exact stable_append h (by decide)
    | succ n =>
      refine stable_append (stable_append ?_ ?_) (by decide)
      · rw [List.map_drop, h]
      · rw [List.map_take, h]

theorem stable_pyJoin {ws : List Str}
    (h : ∀ w ∈ ws, w.map Char.toLower = w) :
    (pyJoin ws).map Char.toLower = pyJoin ws := by
  induction ws with
  | nil => rfl
  | cons w vs ih =>
    cases vs with
    | nil => simpa [pyJoin] using h w (by simp)
    | cons v vs2 =>
      simp only [pyJoin, List.map_append, List.map_cons]
      rw [h w (by simp), ih fun u hu => h u (by simp [hu])]
      rfl

/-- The first character upper-cased, the rest untouched — the
capitalization described by the specification ("the entire joined string
has only its first character capitalized"). -/
def firstCharUpper : Str → Str
  | [] => []
  | c :: cs => c.toUpper :: cs

theorem pyCapitalize_eq_firstUpper {s : Str}
    (h : s.map Char.toLower = s) : pyCapitalize s = firstCharUpper s := by
  cases s with
  | nil => rfl
  | cons c cs =>
    simp only [pyCapitalize, firstCharUpper, List.map_cons] at h ⊢
    injection h with h1 h2
    rw [h2]

/-- The pig-latin rendering as the specification words it: lower-case
each whitespace-separated word, pig-latinize each word, join with single
spaces, and capitalize only the first character of the whole result. -/
def piglatinSpecRendering (q : Str) : Str :=
  firstCharUpper
    (pyJoin (((pySplit q).map (List.map Char.toLower)).map _word_to_piglatin))

/-- The code's rendering (lower the whole string, then split, transform,
join, `str.capitalize`) coincides with the specification's rendering
(lower each word, transform, join, upper-case only the first character):
lowering commutes with whitespace splitting, and the joined transformed
words are already lower-case, so `capitalize`'s lowering of the tail is
the identity. -/
theorem piglatinRendering_eq_spec (q : Str) :
    piglatinRendering q = piglatinSpecRendering q := by
  unfold piglatinRendering piglatinSpecRendering
  rw [pySplit_map_toLower]
  apply pyCapitalize_eq_firstUpper
  apply stable_pyJoin
  intro w hw
  rcases List.mem_map.mp hw with ⟨u, hu, rfl⟩
  rcases List.mem_map.mp hu with ⟨v, _, rfl⟩
  exact stable_word_to_piglatin (stable_map_toLower v)

/-- C4, confirmed.  For every input whose pig-latin rendering — computed
per the specification: lower-case each whitespace-separated word; a word
starting with a vowel of {a,e,i,o,u} gets `way` appended; a word with a
later first vowel has its leading consonant cluster moved to the end with
`ay` appended; a vowel-less word is unchanged; words joined with single
spaces and only the first character of the whole result capitalized —
stays within 50 characters and differs from the input,
`transform_to_piglatin` returns exactly that rendering. -/
theorem transform_to_piglatin_spec (q : Str)
    (h1 : (piglatinSpecRendering q).length ≤ MAX_QUOTE_LENGTH)
    (h2 : piglatinSpecRendering q ≠ q) :
    transform_to_piglatin q = .ok (piglatinSpecRendering q) := by
  have hc : ¬(piglatinSpecRendering q).length > MAX_QUOTE_LENGTH := by omega
  simp only [transform_to_piglatin, piglatinRendering_eq_spec, if_neg hc,
    if_neg h2]

/-- Witness for C4: `hello` yields `Ellohay` and `the` yields `Ethay`. -/
theorem transform_to_piglatin_spec_witness :
    transform_to_piglatin "hello".data = .ok "Ellohay".data ∧
    transform_to_piglatin "the".data = .ok "Ethay".data := by
  constructor
  · have h := transform_to_piglatin_spec "hello".data (by decide) (by decide)
    rwa [(by decide : piglatinSpecRendering "hello".data = "Ellohay".data)]
      at h
  · have h := transform_to_piglatin_spec "the".data (by decide) (by decide)
    rwa [(by decide : piglatinSpecRendering "the".data = "Ethay".data)] at h
